import Mathlib

/-!
Verification of the ZSAT local-search engine and its collaborators.

The definitions below are shallow embeddings of the Rust source:
machine integers become `Nat`/`Int` (with explicit `% 2^32` where the
source relies on wrap-around), `f64` noise arithmetic becomes `ℚ`,
fallible operations return `Option`, and the mutable `LocalSearch`
struct becomes explicit state passing over an `LSState` record.
-/

namespace ZSAT

/-! ## RandomGenerator (src/data_structures/random.rs)

Implements the same pseudorandom number algorithm as Z3.  `data` is a
`u32`, modelled as a natural number below `2^32`. -/

def U32MOD : Nat := 4294967296

structure RandomGenerator where
  data : Nat
deriving DecidableEq

namespace RandomGenerator

/-- Constant `MAX_VALUE = 0x7fff` from the source. -/
def MAX_VALUE : Nat := 0x7fff

def with_seed (seed : Nat) : RandomGenerator := ⟨seed % U32MOD⟩

def set_seed (_g : RandomGenerator) (seed : Nat) : RandomGenerator := ⟨seed % U32MOD⟩

/-- Source: `self.data = self.data * 214013 + 2531011; (self.data >> 16) & MAX_VALUE`,
returning the updated generator and the produced value. -/
def next (g : RandomGenerator) : RandomGenerator × Nat :=
  let d := (g.data * 214013 + 2531011) % U32MOD
  (⟨d⟩, (d >>> 16) &&& MAX_VALUE)

def at_most (g : RandomGenerator) (n : Nat) : RandomGenerator × Nat :=
  let (g', r) := g.next
  (g', r % n)

end RandomGenerator

/-! ## ResourceLimit (src/resource_limit.rs)

`count`, `limit` and the `limits` stack are `u64`; `push` uses
`u64::MAX` as the "unlimited" ceiling and a saturating add, which we
model explicitly.  `cancel` is a `u32` counter.  `pop` unwraps the
popped stack entry, so it is partial: we return `Option`. -/

def U64MAX : Nat := 18446744073709551615

structure ResourceLimit where
  cancel  : Nat
  suspend : Bool
  count   : Nat
  limit   : Nat
  limits  : List Nat
deriving DecidableEq

namespace ResourceLimit

/-- Rust `Default`: every numeric field `0`, `suspend` false, stacks empty. -/
def new : ResourceLimit :=
  { cancel := 0, suspend := false, count := 0, limit := 0, limits := [] }

/-- Method `push(delta_limit)`: `0` means unlimited (`u64::MAX`); otherwise
`count.saturating_add(delta)`.  The old limit is pushed and the new
limit is the min of the two; `cancel` is reset. -/
def push (r : ResourceLimit) (delta_limit : Nat) : ResourceLimit :=
  let new_limit := if delta_limit = 0 then U64MAX else min (r.count + delta_limit) U64MAX
  { r with
    limits := r.limits ++ [r.limit]
    limit  := min new_limit r.limit
    cancel := 0 }

/-- Method `pop()`: clamp `count` to the current limit, restore the previous
limit from the stack (`unwrap` ⇒ `none` when the stack is empty), and
reset `cancel`. -/
def pop (r : ResourceLimit) : Option ResourceLimit :=
  match r.limits.getLast? with
  | none => none
  | some previous =>
    some { r with
           count  := if r.limit < r.count then r.limit else r.count
           limit  := previous
           limits := r.limits.dropLast
           cancel := 0 }

/-- Method `not_canceled()`: `(cancel == 0 && count <= limit) || suspend`. -/
def not_canceled (r : ResourceLimit) : Bool :=
  (decide (r.cancel = 0) && decide (r.count ≤ r.limit)) || r.suspend

/-- Method `inc_by(n)`: increment `count` by `n`, then report `not_canceled()`
of the updated value. -/
def inc_by (r : ResourceLimit) (n : Nat) : Bool × ResourceLimit :=
  let r' := { r with count := r.count + n }
  (r'.not_canceled, r')

/-- Method `inc()` is `inc_by(1)`. -/
def inc (r : ResourceLimit) : Bool × ResourceLimit := r.inc_by 1

/-- Method `cancel()` = `set_cancel(cancel + 1)` (child recursion not modelled:
it never touches `count`). -/
def do_cancel (r : ResourceLimit) : ResourceLimit := { r with cancel := r.cancel + 1 }

/-- Method `reset_cancel()` = `set_cancel(0)`. -/
def reset_cancel (r : ResourceLimit) : ResourceLimit := { r with cancel := 0 }

end ResourceLimit

/-- The operations of `ResourceLimit` considered in the effort-count claims. -/
inductive RLOp where
  | push (delta : Nat)
  | pop
  | inc
  | inc_by (n : Nat)
  | cancel
  | reset_cancel
deriving DecidableEq

/-- One operation applied to a `ResourceLimit` (`none` when `pop` would
`unwrap` an empty stack). -/
def rlStep (r : ResourceLimit) : RLOp → Option ResourceLimit
  | .push d => some (r.push d)
  | .pop => r.pop
  | .inc => some r.inc.2
  | .inc_by n => some (r.inc_by n).2
  | .cancel => some r.do_cancel
  | .reset_cancel => some r.reset_cancel

/-! ## Noise adaptation (src/local_search/local_search.rs, `reinit`)

The `f64` fields `noise`, `best_unsat_rate`, `last_best_unsat_rate`,
`noise_delta` are modelled as rationals.  `reinit` begins with the
branch reproduced here verbatim; it returns the updated
`(noise, best_unsat_rate)` pair. -/

def reinit_noise (noise best_unsat_rate last_best_unsat_rate noise_delta : ℚ) : ℚ × ℚ :=
  if best_unsat_rate > last_best_unsat_rate then
    -- worse
    (noise - noise * 2 * noise_delta, best_unsat_rate * 1000)
  else
    -- better
    (noise + (10000 - noise) * noise_delta, best_unsat_rate)

/-! ## LiftedBool (src/lifted_bool.rs) -/

inductive LiftedBool where
  | False
  | Undefined
  | True
deriving DecidableEq

/-! ## Literal (src/literal.rs)

A literal wraps a `BoolVariable` (a `usize`), encoding variable `v`
with sign `s` as `2*v + s`.  `NULL_BOOL_VAR = usize::MAX >> 1`. -/

def NULL_BOOL_VAR : Nat := 9223372036854775807

structure Lit where
  code : Nat
deriving DecidableEq

namespace Lit

def var (l : Lit) : Nat := l.code >>> 1

def sign (l : Lit) : Bool := l.code &&& 1 != 0

def null : Lit := ⟨NULL_BOOL_VAR <<< 1⟩

def make (v : Nat) (sign : Bool) : Lit :=
  if sign then ⟨(v <<< 1) + 1⟩ else ⟨v <<< 1⟩

def negated (l : Lit) : Lit := ⟨l.code ^^^ 1⟩

end Lit

/-! ## PbCoefficient, Constraint, VariableInfo (src/local_search/) -/

/-- A `(constraint_id, coefficient)` watch-list entry (both `u32`). -/
structure PbCoefficient where
  constraint_id : Nat
  coefficient   : Nat
deriving DecidableEq

/-- One "≤ k" pseudo-Boolean constraint.  `slack` is an `i64`. -/
structure Constraint where
  id       : Nat
  k        : Nat
  slack    : Int
  literals : List Lit
deriving DecidableEq

instance : Inhabited Constraint := ⟨{ id := 0, k := 0, slack := 0, literals := [] }⟩

/-- Per-variable search state.  The float-valued fields (`slow_break`
exponential moving average, `break_prob`) and the binary-implication /
neighbour lists, which no claim touches, are omitted. -/
structure VariableInfo where
  value       : Bool
  bias        : Nat
  unit        : Bool
  conf_change : Bool
  score       : Int
  slack_score : Int
  time_stamp  : Nat
  flips       : Nat
  watch_true  : List PbCoefficient
  watch_false : List PbCoefficient
deriving DecidableEq

/-- Rust `Default for VariableInfo`: `value: true, bias: 50`, everything
else zero/empty, `conf_change: true`. -/
instance : Inhabited VariableInfo :=
  ⟨{ value := true, bias := 50, unit := false, conf_change := true, score := 0,
     slack_score := 0, time_stamp := 0, flips := 0, watch_true := [], watch_false := [] }⟩

/-- Method `VariableInfo::get_watch(truth_value)`: the `(trues, falses)` pair
indexed by a boolean. -/
def VariableInfo.get_watch (vi : VariableInfo) (truth_value : Bool) : List PbCoefficient :=
  if truth_value then vi.watch_true else vi.watch_false

/-! ## LocalSearch engine state (src/local_search/local_search.rs)

The fields of `LocalSearch` that the flip/stack machinery reads and
writes.  Scalar configuration (noise, RNG) is passed explicitly to the
operations that consume it. -/

structure LSState where
  vars                 : List VariableInfo
  constraints          : List Constraint
  unsat_stack          : List Nat
  index_in_unsat_stack : List Nat
  is_unsat             : Bool
deriving DecidableEq

namespace LSState

/-- Method `num_vars()`: var index runs from 0 below `vars.len() - 1`; the last
entry is the virtual sentinel variable. -/
def num_vars (s : LSState) : Nat := s.vars.length - 1

def cur_solution (s : LSState) (v : Nat) : Bool := (s.vars.getD v default).value

def is_unit (s : LSState) (v : Nat) : Bool := (s.vars.getD v default).unit

def is_unit_literal (s : LSState) (l : Lit) : Bool := s.is_unit l.var

def is_true_literal (s : LSState) (l : Lit) : Bool := s.cur_solution l.var != l.sign

def num_constraints (s : LSState) : Nat := s.constraints.length

def constraint_slack (s : LSState) (ci : Nat) : Int := (s.constraints.getD ci default).slack

def constraint_k (s : LSState) (ci : Nat) : Nat := (s.constraints.getD ci default).k

/-- Method `unsat(constraint)`: record the stack position of `constraint` and
push it onto `unsat_stack`. -/
def unsat (s : LSState) (constraint : Nat) : LSState :=
  { s with
    index_in_unsat_stack := s.index_in_unsat_stack.set constraint s.unsat_stack.length
    unsat_stack := s.unsat_stack ++ [constraint] }

/-- Method `sat(constraint)`: swap the removed id with the stack's last element
(via its stored index) and pop. -/
def sat (s : LSState) (constraint : Nat) : LSState :=
  let last_unsat_constraint := (s.unsat_stack.getLast?).getD 0
  let index := s.index_in_unsat_stack.getD constraint 0
  { s with
    unsat_stack := (s.unsat_stack.set index last_unsat_constraint).dropLast
    index_in_unsat_stack := s.index_in_unsat_stack.set last_unsat_constraint index }

/-- One iteration of `flip_walksat`'s first (`true_part`) loop body:
subtract the coefficient from the constraint's slack and push onto the
unsat stack on a non-negative → negative transition. -/
def flip_dec_step (s : LSState) (pb : PbCoefficient) : LSState :=
  let c := s.constraints.getD pb.constraint_id default
  let old_slack := c.slack
  let c' := { c with slack := old_slack - pb.coefficient }
  let s' := { s with constraints := s.constraints.set pb.constraint_id c' }
  if c'.slack < 0 ∧ 0 ≤ old_slack then s'.unsat pb.constraint_id else s'

/-- One iteration of `flip_walksat`'s second (`false_part`) loop body:
add the coefficient back; the source guards the `sat` removal with the
same `slack < 0 && old_slack >= 0` test as the first loop. -/
def flip_inc_step (s : LSState) (pb : PbCoefficient) : LSState :=
  let c := s.constraints.getD pb.constraint_id default
  let old_slack := c.slack
  let c' := { c with slack := old_slack + pb.coefficient }
  let s' := { s with constraints := s.constraints.set pb.constraint_id c' }
  if c'.slack < 0 ∧ 0 ≤ old_slack then s'.sat pb.constraint_id else s'

/-- Method `flip_walksat(flipvar)`: toggle the assignment, bump the flip
counter, then walk the two watch lists updating slacks and the unsat
stack.  (`slow_break` is a float moving average and is omitted.) -/
def flip_walksat (s : LSState) (flipvar : Nat) : LSState :=
  let vi := s.vars.getD flipvar default
  let flip_is_true := !vi.value
  let vi' := { vi with value := flip_is_true, flips := vi.flips + 1 }
  let s1 := { s with vars := s.vars.set flipvar vi' }
  let true_part := vi'.get_watch flip_is_true
  let false_part := vi'.get_watch (!flip_is_true)
  let s2 := true_part.foldl flip_dec_step s1
  false_part.foldl flip_inc_step s2

/-- Inner loop body of `init_slack`'s first pass: subtract one watch
entry's coefficient from its constraint's slack. -/
def init_dec_step (t : LSState) (pb : PbCoefficient) : LSState :=
  let c := t.constraints.getD pb.constraint_id default
  { t with constraints := t.constraints.set pb.constraint_id
             { c with slack := c.slack - pb.coefficient } }

/-- The slack-subtraction pass of `init_slack` for one variable `v`:
subtract each coefficient of `v`'s currently-true watch list from the
watched constraint's slack. -/
def init_slack_var (s : LSState) (v : Nat) : LSState :=
  let vi := s.vars.getD v default
  (vi.get_watch vi.value).foldl init_dec_step s

/-- Loop body of `init_slack`'s second pass: push constraint `c` when
its slack is negative ("violate the at-most-k constraint"). -/
def init_push_step (t : LSState) (c : Nat) : LSState :=
  if t.constraint_slack c < 0 then t.unsat c else t

/-- Method `init_slack()`: one pass subtracting the coefficients of all
currently-true literals, then push every constraint with negative slack
onto the unsat stack. -/
def init_slack (s : LSState) : LSState :=
  let s1 := (List.range s.num_vars).foldl init_slack_var s
  (List.range s1.num_constraints).foldl init_push_step s1

/-- Method `extract_model()`: the model holds, for every non-sentinel variable,
`True`/`False` according to the current solution. -/
def extract_model (s : LSState) : List LiftedBool :=
  (List.range s.num_vars).map
    (fun v => if s.cur_solution v then LiftedBool.True else LiftedBool.False)

/-- The result computation at the end of `check` (lines deciding
`LiftedBool::False` / `True` / `Undefined` from `is_unsat` and the
unsat stack). -/
def check_result (s : LSState) : LiftedBool :=
  if s.is_unsat then LiftedBool.False
  else if s.unsat_stack.isEmpty then LiftedBool.True
  else LiftedBool.Undefined

/-- Method `constraint_coefficient_with_literal(c, l)`: the coefficient of `l`
in constraint `c`, looked up in the watch list of `l`'s variable for
the branch on which `l` is the true polarity (`is_pos(l)`). -/
def constraint_coefficient (s : LSState) (c : Constraint) (l : Lit) : Nat :=
  match ((s.vars.getD l.var default).get_watch (!l.sign)).find?
          (fun pb => pb.constraint_id == c.id) with
  | some pb => pb.coefficient
  | none => 0

/-- Method `constraint_value(c)`: the sum of the coefficients of the
currently-true literals of `c`. -/
def constraint_value (s : LSState) (c : Constraint) : Nat :=
  (c.literals.map
    (fun l => if s.is_true_literal l then s.constraint_coefficient c l else 0)).sum

/-- The check performed (per stacked constraint) by the debug assertion
in `verify_unsat_stack`: every constraint on the unsat stack must have
`k < constraint_value`, i.e. really be violated. -/
def verify_unsat_stack_holds (s : LSState) : Prop :=
  ∀ ci ∈ s.unsat_stack, s.constraint_k ci < s.constraint_value (s.constraints.getD ci default)

instance (s : LSState) : Decidable (s.verify_unsat_stack_holds) := by
  unfold verify_unsat_stack_holds; infer_instance

/-- Outcome of one `'reflip` iteration of `pick_flip_walksat`: flip a
chosen variable, declare unsat, retry the loop, or give up with no
candidate. -/
inductive PickResult where
  | flip (v : Nat)
  | found_unsat
  | retry
  | no_best
deriving DecidableEq

/-- The `best_bsb` accumulation over the first eligible literal's false
watch list (no early exits on this first pass). -/
def bsb_init (s : LSState) (falsep : List PbCoefficient) (num_unsat : Nat) : Nat :=
  falsep.foldl
    (fun bsb pb =>
      let slack := s.constraint_slack pb.constraint_id
      if slack < 0 then bsb + 1
      else if slack < pb.coefficient then bsb + num_unsat
      else bsb) 0

/-- The `bsb` accumulation for a subsequent literal, with the source's
early `break`s against the current best. -/
def bsb_scan (s : LSState) (best_bsb num_unsat : Nat) :
    List PbCoefficient → Nat → Nat
  | [], bsb => bsb
  | pb :: rest, bsb =>
    let slack := s.constraint_slack pb.constraint_id
    if slack < 0 then
      if bsb = best_bsb then bsb else bsb_scan s best_bsb num_unsat rest (bsb + 1)
    else if slack < pb.coefficient then
      if best_bsb < bsb + num_unsat then bsb + num_unsat
      else bsb_scan s best_bsb num_unsat rest (bsb + num_unsat)
    else bsb_scan s best_bsb num_unsat rest bsb

/-- Accumulator of the greedy scan in `pick_flip_walksat`. -/
structure GreedyAcc where
  best_bsb : Nat
  best_var : Nat
  n        : Nat
  rng      : RandomGenerator

/-- Loop body of the greedy scan over the remaining eligible literals.
As transliterated, `it.next()` is `None` exactly when the false watch
list is empty, so `best_var` is only updated in that case. -/
def greedy_step (s : LSState) (num_unsat : Nat) (acc : GreedyAcc) (l : Lit) : GreedyAcc :=
  let v := l.var
  let tt := s.cur_solution v
  let falsep := (s.vars.getD v default).get_watch (!tt)
  let bsb := bsb_scan s acc.best_bsb num_unsat falsep 0
  if falsep.isEmpty then
    if bsb < acc.best_bsb then { acc with best_bsb := bsb, best_var := v, n := 1 }
    else
      let n' := acc.n + 1
      let (rng', r) := acc.rng.next
      if r % n' = 0 then { acc with best_var := v, n := n', rng := rng' }
      else { acc with n := n', rng := rng' }
  else acc

/-- Loop body of the uniform (non-greedy) reservoir selection. -/
def random_step (acc : Nat × Nat × RandomGenerator) (l : Lit) : Nat × Nat × RandomGenerator :=
  let (best_var, n, rng) := acc
  let (rng', r) := rng.next
  (if r % n = 0 then l.var else best_var, n + 1, rng')

/-- Common tail of `pick_flip_walksat`: give up on the null sentinel,
retry on a unit variable, otherwise flip. -/
def pick_finish (s : LSState) (best_var : Nat) (rng : RandomGenerator) :
    PickResult × RandomGenerator :=
  if best_var = NULL_BOOL_VAR then (.no_best, rng)
  else if s.is_unit best_var then (.retry, rng)
  else (.flip best_var, rng)

/-- One `'reflip` iteration of `pick_flip_walksat`.  `noise` is the f64
noise field (modelled as ℚ, normalised by 10000); the RNG is threaded
explicitly. -/
def pick_flip_walksat (s : LSState) (noise : ℚ) (rng : RandomGenerator) :
    PickResult × RandomGenerator :=
  let num_unsat := s.unsat_stack.length
  let (rng1, r1) := rng.next
  let ci := s.unsat_stack.getD (r1 % num_unsat) 0
  let c := s.constraints.getD ci default
  let filtered := c.literals.filter (fun l => s.is_true_literal l && !(s.is_unit_literal l))
  let (rng2, r2) := rng1.next
  if ((r2 % 10000 : Nat) : ℚ) ≤ noise then
    match filtered with
    | [] =>
      if c.k < s.constraint_value c then (.found_unsat, rng2) else (.retry, rng2)
    | f :: rest =>
      let best_var := f.var
      let tt := s.cur_solution best_var
      let falsep := (s.vars.getD best_var default).get_watch (!tt)
      let best_bsb := bsb_init s falsep num_unsat
      let acc := rest.foldl (greedy_step s num_unsat)
        { best_bsb := best_bsb, best_var := best_var, n := 1, rng := rng2 }
      pick_finish s acc.best_var acc.rng
  else
    let (best_var, _, rng') := filtered.foldl random_step (NULL_BOOL_VAR, 1, rng2)
    pick_finish s best_var rng'

/-- One iteration of the selection loop of `pick_flip_lookahead`: keep
the eligible literal minimising the observed unsat-stack size after a
tentative flip-and-propagate.  `measure i` abstracts that observation
for the `i`-th eligible literal (`none` when the tentative propagation
fails), since unit protection is independent of the measured values. -/
def lookahead_step (measure : Nat → Option Nat) (acc : Lit × Nat × Nat) (l : Lit) :
    Lit × Nat × Nat :=
  let (best, best_make, i) := acc
  match measure i with
  | some len => if len < best_make then (l, len, i + 1) else (best, best_make, i + 1)
  | none => (best, best_make, i + 1)

/-- The chosen literal of `pick_flip_lookahead` (`best`, initially the
null literal with `best_make = usize::MAX`). -/
def lookahead_best (filtered : List Lit) (measure : Nat → Option Nat) : Lit :=
  (filtered.foldl (lookahead_step measure) (Lit.null, U64MAX, 0)).1

/-- The variables on which `pick_flip_lookahead` invokes `flip_walksat`,
in order: each eligible literal is tentatively flipped and flipped back,
and the chosen best literal (when not null) is flipped at the end. -/
def pick_flip_lookahead_flips (s : LSState) (rng : RandomGenerator)
    (measure : Nat → Option Nat) : List Nat :=
  let num_unsat := s.unsat_stack.length
  let (_, r1) := rng.next
  let ci := s.unsat_stack.getD (r1 % num_unsat) 0
  let c := s.constraints.getD ci default
  let filtered := c.literals.filter (fun l => !(s.is_unit_literal l) && s.is_true_literal l)
  let best := lookahead_best filtered measure
  (filtered.map (fun l => [l.var, l.var])).flatten ++
    (if best = Lit.null then [] else [best.var])

end LSState

/-! ## Reachability and invariants -/

namespace LSState

/-- The per-constraint contribution of one watch list: the sum of the
coefficients of its entries for constraint `ci`. -/
def watch_sum (ps : List PbCoefficient) (ci : Nat) : Nat :=
  (ps.map (fun pb => if pb.constraint_id = ci then pb.coefficient else 0)).sum

/-- The left-hand-side value of constraint `ci` as the watch lists
represent it: for every non-sentinel variable, the coefficients of the
watch entries on the variable's currently-true branch. -/
def lhs_value (s : LSState) (ci : Nat) : Nat :=
  ((List.range s.num_vars).map
    (fun v => watch_sum ((s.vars.getD v default).get_watch (s.cur_solution v)) ci)).sum

/-- The coefficient mass that constraint `ci`'s literal list assigns to
variable `v` on polarity branch `b` (a literal `l` lives on branch
`!l.sign`, the branch on which it is true). -/
def lit_sum (s : LSState) (ci v : Nat) (b : Bool) : Nat :=
  let c := s.constraints.getD ci default
  ((c.literals.filter (fun l => l.var == v && (!l.sign) == b)).map
    (fun l => s.constraint_coefficient c l)).sum

/-- Agreement between the two representations of a constraint: every
literal's variable is a real (non-sentinel) variable, and per variable
and polarity branch the literal list and the watch lists carry the same
coefficient mass.  `import`/`add_cardinality`/`add_pb` establish this
when they register each pushed literal in the matching watch list. -/
def Coherent (s : LSState) : Prop :=
  (∀ ci < s.constraints.length, ∀ l ∈ (s.constraints.getD ci default).literals,
    l.var < s.num_vars) ∧
  (∀ ci < s.constraints.length, ∀ v < s.num_vars, ∀ b : Bool,
    s.lit_sum ci v b = watch_sum ((s.vars.getD v default).get_watch b) ci)

instance (s : LSState) : Decidable (Coherent s) := by
  unfold Coherent; infer_instance

/-- The state `reinit` hands to `init_slack`: every slack reset to `k`,
the unsat stack cleared, and `is_unsat` reset. -/
def Fresh (s : LSState) : Prop :=
  (∀ ci < s.constraints.length,
    (s.constraints.getD ci default).slack = ((s.constraints.getD ci default).k : Int)) ∧
  s.unsat_stack = [] ∧ s.is_unsat = false

instance (s : LSState) : Decidable (Fresh s) := by
  unfold Fresh; infer_instance

/-- The observable states of one try: the state right after `init_slack`
within `reinit`, and every state after a `flip_walksat` of a real,
non-unit variable. -/
inductive Reachable : LSState → LSState → Prop where
  | init : ∀ s0, Fresh s0 → Reachable s0 s0.init_slack
  | step : ∀ s0 s v, Reachable s0 s → v < s.num_vars → s.is_unit v = false →
      Reachable s0 (s.flip_walksat v)

/-- The slack invariant, stated against the watch-list representation. -/
def SlackInv (s : LSState) : Prop :=
  ∀ ci < s.constraints.length,
    s.constraint_slack ci = (s.constraint_k ci : Int) - (s.lhs_value ci : Int)

/-- Every violated constraint is on the unsat stack. -/
def StackInv (s : LSState) : Prop :=
  ∀ ci < s.constraints.length, s.constraint_slack ci < 0 → ci ∈ s.unsat_stack

end LSState

/-! ## Concrete example states -/

/-- One real variable, currently `true`, watching constraint 0 with
coefficient 1 on its true branch (the positive literal `x0`). -/
def exVar0 : VariableInfo :=
  { value := true, bias := 50, unit := false, conf_change := true, score := 0,
    slack_score := 0, time_stamp := 0, flips := 0,
    watch_true := [⟨0, 1⟩], watch_false := [] }

/-- A fresh engine state with a single constraint `1·x0 ≤ 0` (violated
once `x0` is assigned true) plus the sentinel variable. -/
def exState : LSState :=
  { vars := [exVar0, default],
    constraints := [{ id := 0, k := 0, slack := 0, literals := [⟨0⟩] }],
    unsat_stack := [], index_in_unsat_stack := [0], is_unsat := false }

/-- Like `exState` but with bound `k = 1`, so the constraint is
satisfied (slack `0`) under the initial assignment. -/
def exStateSat : LSState :=
  { vars := [exVar0, default],
    constraints := [{ id := 0, k := 1, slack := 1, literals := [⟨0⟩] }],
    unsat_stack := [], index_in_unsat_stack := [0], is_unsat := false }

/-! ## Theorems -/

/-- C1: evaluation of the code at the failing input.  `exState` is fresh
and coherent; `init_slack` correctly pushes constraint 0 (slack −1) onto
the unsat stack; but after `flip_walksat 0` makes the constraint
satisfied again (slack 0), the constraint is NOT removed — it stays on
the unsat stack, so the stack no longer equals `{c | slack(c) < 0}` and
the code's own `verify_unsat_stack` debug assertion fails.  The removal
in `flip_walksat`'s slack-increasing loop is guarded by
`slack < 0 && old_slack >= 0`, which can never hold there. -/
theorem unsat_stack_desync_after_flip :
    LSState.Fresh ZSAT.exState ∧ LSState.Coherent ZSAT.exState ∧
    (ZSAT.exState.init_slack).constraint_slack 0 = -1 ∧
    (ZSAT.exState.init_slack).unsat_stack = [0] ∧
    ((ZSAT.exState.init_slack).flip_walksat 0).constraint_slack 0 = 0 ∧
    ((ZSAT.exState.init_slack).flip_walksat 0).unsat_stack = [0] ∧
    ¬ ((ZSAT.exState.init_slack).flip_walksat 0).verify_unsat_stack_holds := by
  decide

/-- C6 counterexample: in the "worse" branch (`best_unsat_rate 1 >
last_best_unsat_rate 0`) with `noise = 0` — a value inside `[0, 10000]`
— the updated noise equals 0: it is not strictly decreased. -/
theorem reinit_noise_not_strictly_decreased :
    (1 : ℚ) > 0 ∧ (reinit_noise 0 1 0 (1/20)).1 = 0 ∧
    ¬ (reinit_noise 0 1 0 (1/20)).1 < 0 := by
  refine ⟨by norm_num, ?_, ?_⟩ <;> simp [reinit_noise]

/-- C6 amended: in `reinit`, when the best-unsat rate got worse the
noise is decreased by exactly `noise·2·noise_delta` (a strict decrease
whenever `noise` and `noise_delta` are positive); otherwise it is
increased by exactly `(10000 − noise)·noise_delta`; and starting from
`noise ∈ [0, 10000]` with `noise_delta = 0.05` the updated noise stays
within `[0, 10000]`. -/
theorem reinit_noise_adaptation (noise best last delta : ℚ) :
    (best > last →
      (reinit_noise noise best last delta).1 = noise - noise * 2 * delta ∧
      (0 < noise → 0 < delta → (reinit_noise noise best last delta).1 < noise)) ∧
    (¬ best > last →
      (reinit_noise noise best last delta).1 = noise + (10000 - noise) * delta) ∧
    (0 ≤ noise → noise ≤ 10000 → delta = 1/20 →
      0 ≤ (reinit_noise noise best last delta).1 ∧
      (reinit_noise noise best last delta).1 ≤ 10000) := by
  have hw : best > last →
      (reinit_noise noise best last delta).1 = noise - noise * 2 * delta := by
    intro h; unfold reinit_noise; rw [if_pos h]
  have hb : ¬ best > last →
      (reinit_noise noise best last delta).1 = noise + (10000 - noise) * delta := by
    intro h; unfold reinit_noise; rw [if_neg h]
  refine ⟨fun h => ⟨hw h, fun hn hd => ?_⟩, hb, fun h0 h1 hd => ?_⟩
  · rw [hw h]; nlinarith
  · subst hd
    by_cases h : best > last
    · rw [hw h]; constructor <;> nlinarith
    · rw [hb h]; constructor <;> nlinarith

/-- C6 witness: with `noise = 5000`, `best = 1 > last = 0`,
`delta = 1/20`, the amended statement instantiates concretely. -/
theorem reinit_noise_adaptation_witness :
    (reinit_noise 5000 1 0 (1/20)).1 = 5000 - 5000 * 2 * (1/20) ∧
    (reinit_noise 5000 1 0 (1/20)).1 < 5000 ∧
    0 ≤ (reinit_noise 5000 1 0 (1/20)).1 ∧
    (reinit_noise 5000 1 0 (1/20)).1 ≤ 10000 := by
  have h := reinit_noise_adaptation 5000 1 0 (1/20)
  have h1 := h.1 (by norm_num)
  have h3 := h.2.2 (by norm_num) (by norm_num) rfl
  exact ⟨h1.1, h1.2 (by norm_num) (by norm_num), h3.1, h3.2⟩

/-- C7 counterexample: starting from the default `ResourceLimit`
(whose `limit` is 0), `push 5` keeps the ceiling at 0, `inc_by 10`
raises the count to 10, and the following `pop` clamps the count back
down to 0 — the effort count is not monotonically increasing across
the operation sequence `push; inc_by; pop`. -/
theorem rl_pop_decreases_count :
    ((ResourceLimit.new.push 5).inc_by 10).2.count = 10 ∧
    (rlStep ((ResourceLimit.new.push 5).inc_by 10).2 RLOp.pop).map
      ResourceLimit.count = some 0 := by
  decide

/-- C7 amended: the effort count is non-decreasing under every
`ResourceLimit` operation except `pop`; `pop` sets the count to
`min(count, limit)` (clamping it down to the current ceiling). -/
theorem rl_count_monotone_except_pop (r r' : ResourceLimit) (op : RLOp)
    (h : rlStep r op = some r') :
    (op ≠ RLOp.pop → r.count ≤ r'.count) ∧
    (op = RLOp.pop → r'.count = min r.count r.limit) := by
  cases op with
  | pop =>
    refine ⟨fun hne => absurd rfl hne, fun _ => ?_⟩
    unfold rlStep ResourceLimit.pop at h
    cases hl : r.limits.getLast? with
    | none => rw [hl] at h; exact absurd h (by simp)
    | some previous =>
      rw [hl] at h
      simp only [Option.some.injEq] at h
      subst h
      simp only [Nat.min_def]
      by_cases hc : r.limit < r.count
      · rw [if_pos hc, if_neg (by omega)]
      · rw [if_neg hc, if_pos (by omega)]
  | push d =>
    refine ⟨fun _ => ?_, fun he => absurd he (by simp)⟩
    unfold rlStep at h
    simp only [Option.some.injEq] at h
    subst h; exact Nat.le_refl _
  | inc =>
    refine ⟨fun _ => ?_, fun he => absurd he (by simp)⟩
    unfold rlStep at h
    simp only [Option.some.injEq] at h
    subst h; exact Nat.le_succ _
  | inc_by n =>
    refine ⟨fun _ => ?_, fun he => absurd he (by simp)⟩
    unfold rlStep at h
    simp only [Option.some.injEq] at h
    subst h; exact Nat.le_add_right _ _
  | cancel =>
    refine ⟨fun _ => ?_, fun he => absurd he (by simp)⟩
    unfold rlStep at h
    simp only [Option.some.injEq] at h
    subst h; exact Nat.le_refl _
  | reset_cancel =>
    refine ⟨fun _ => ?_, fun he => absurd he (by simp)⟩
    unfold rlStep at h
    simp only [Option.some.injEq] at h
    subst h; exact Nat.le_refl _

/-- C7 witness: the amended statement instantiated at a concrete state
and two concrete operations (`inc` does not decrease the count; `pop`
on that state clamps to `min(count, limit)`). -/
theorem rl_count_monotone_except_pop_witness :
    (ResourceLimit.new.count ≤ ResourceLimit.new.inc.2.count) ∧
    (rlStep ((ResourceLimit.new.push 5).inc_by 10).2 RLOp.pop =
       some { cancel := 0, suspend := false, count := 0, limit := 0, limits := [] } ∧
     (0 : Nat) = min ((ResourceLimit.new.push 5).inc_by 10).2.count
                     ((ResourceLimit.new.push 5).inc_by 10).2.limit) := by
  refine ⟨(rl_count_monotone_except_pop ResourceLimit.new ResourceLimit.new.inc.2
      RLOp.inc rfl).1 (by decide), by decide, ?_⟩
  exact ((rl_count_monotone_except_pop ((ResourceLimit.new.push 5).inc_by 10).2
      { cancel := 0, suspend := false, count := 0, limit := 0, limits := [] }
      RLOp.pop (by decide)).2 rfl).symm

/-- C8: `inc()` increments the count by exactly 1, and returns `true`
exactly when `(cancel = 0 and the new count ≤ limit)` or the `suspend`
flag is set — so while suspended it always returns `true` while the
count still advances. -/
theorem rl_inc_spec (r : ResourceLimit) :
    r.inc.2.count = r.count + 1 ∧
    (r.inc.1 = true ↔ ((r.cancel = 0 ∧ r.count + 1 ≤ r.limit) ∨ r.suspend = true)) := by
  refine ⟨rfl, ?_⟩
  simp [ResourceLimit.inc, ResourceLimit.inc_by, ResourceLimit.not_canceled]

/-- C9: the pseudo-random generator is deterministic — equal internal
state yields equal `next()` results and equal successor states — and
every produced value is bounded by `0x7fff`. -/
theorem rng_deterministic_and_bounded :
    (∀ g₁ g₂ : RandomGenerator, g₁.data = g₂.data → g₁.next = g₂.next) ∧
    (∀ g : RandomGenerator, g.next.2 ≤ RandomGenerator.MAX_VALUE) := by
  constructor
  · intro g₁ g₂ h
    cases g₁; cases g₂; cases h; rfl
  · intro g
    exact Nat.and_le_right

/-- C9 witness: determinism and the bound instantiated at concrete
seeds. -/
theorem rng_deterministic_and_bounded_witness :
    (RandomGenerator.mk 42).next = (RandomGenerator.mk 42).next ∧
    (RandomGenerator.mk 12345).next.2 ≤ RandomGenerator.MAX_VALUE :=
  ⟨rng_deterministic_and_bounded.1 ⟨42⟩ ⟨42⟩ rfl,
   rng_deterministic_and_bounded.2 ⟨12345⟩⟩

/-- C10: `push(delta)` immediately followed by `pop()` restores both the
`limit` field and the `limits` stack to their exact prior values, for
every starting state and every delta (including 0, the unbounded
ceiling). -/
theorem rl_push_pop_restores (r : ResourceLimit) (delta : Nat) :
    ((r.push delta).pop).map ResourceLimit.limit = some r.limit ∧
    ((r.push delta).pop).map ResourceLimit.limits = some r.limits := by
  unfold ResourceLimit.push ResourceLimit.pop
  simp

/-! ### List helpers -/

theorem getD_set_self {α : Type} (l : List α) (i : Nat) (a d : α) (h : i < l.length) :
    (l.set i a).getD i d = a := by
  simp [List.getD_eq_getElem?_getD, List.getElem?_set, h]

theorem getD_set_ne {α : Type} (l : List α) (i j : Nat) (a d : α) (h : i ≠ j) :
    (l.set i a).getD j d = l.getD j d := by
  simp [List.getD_eq_getElem?_getD, List.getElem?_set, h]

theorem sum_map_add {α : Type} (L : List α) (f g : α → Nat) :
    (L.map (fun x => f x + g x)).sum = (L.map f).sum + (L.map g).sum := by
  induction L with
  | nil => rfl
  | cons x xs ih => simp only [List.map_cons, List.sum_cons, ih]; omega

theorem sum_map_zero {α : Type} (L : List α) (f : α → Nat) (h : ∀ x ∈ L, f x = 0) :
    (L.map f).sum = 0 := by
  apply List.sum_eq_zero
  intro y hy
  obtain ⟨x, hx, rfl⟩ := List.mem_map.mp hy
  exact h x hx

/-- A sum over `range n` of a function vanishing away from `j < n` is
its value at `j`. -/
theorem sum_range_single (n j : Nat) (f : Nat → Nat) (h : j < n)
    (hz : ∀ v, v ≠ j → f v = 0) : ((List.range n).map f).sum = f j := by
  induction n with
  | zero => omega
  | succ m ih =>
    rw [List.range_succ, List.map_append, List.sum_append]
    by_cases hj : j = m
    · subst hj
      rw [sum_map_zero]
      · simp
      · intro v hv
        exact hz v (by have := List.mem_range.mp hv; omega)
    · rw [ih (by omega)]
      simp [hz m (fun he => hj he.symm)]

/-- Changing the summand at a single position `v < n`. -/
theorem sum_range_update (n v : Nat) (f g : Nat → Nat) (hv : v < n)
    (hne : ∀ w, w ≠ v → g w = f w) :
    ((List.range n).map g).sum + f v = ((List.range n).map f).sum + g v := by
  induction n with
  | zero => omega
  | succ m ih =>
    rw [List.range_succ, List.map_append, List.map_append, List.sum_append, List.sum_append]
    by_cases hm : v = m
    · subst hm
      have : (List.range v).map g = (List.range v).map f :=
        List.map_congr_left (fun w hw => hne w (by have := List.mem_range.mp hw; omega))
      rw [this]; simp; omega
    · have ihm := ih (by omega)
      have hgm : g m = f m := hne m (fun he => hm he.symm)
      simp only [List.map_cons, List.map_nil, List.sum_cons, List.sum_nil, hgm]
      omega

theorem sum_filter_map_cons {α : Type} (x : α) (xs : List α) (p : α → Bool) (f : α → Nat) :
    (((x :: xs).filter p).map f).sum =
      (if p x then f x else 0) + ((xs.filter p).map f).sum := by
  rw [List.filter_cons]
  by_cases h : p x
  · rw [if_pos h, if_pos h]; simp
  · rw [if_neg h, if_neg h]; simp

/-! ### Single-step characterizations of the flip and init loop bodies -/

namespace LSState

/-- Replacing element `j` by a slack-only update leaves every
constraint's `k`, `id` and literal list unchanged. -/
theorem getD_set_slack (l : List Constraint) (j ci : Nat) (x : Int) :
    ((l.set j { l.getD j default with slack := x }).getD ci default).k
        = (l.getD ci default).k ∧
    ((l.set j { l.getD j default with slack := x }).getD ci default).id
        = (l.getD ci default).id ∧
    ((l.set j { l.getD j default with slack := x }).getD ci default).literals
        = (l.getD ci default).literals := by
  by_cases hj : j = ci
  · subst hj
    by_cases hl : j < l.length
    · rw [getD_set_self l j _ default hl]
      exact ⟨rfl, rfl, rfl⟩
    · rw [List.set_eq_of_length_le (by omega)]
      exact ⟨rfl, rfl, rfl⟩
  · rw [getD_set_ne l j ci _ default hj]
    exact ⟨rfl, rfl, rfl⟩

theorem getD_set_slack_slack (l : List Constraint) (j ci : Nat) (x : Int) :
    ((l.set j { l.getD j default with slack := x }).getD ci default).slack
      = if j = ci ∧ ci < l.length then x else (l.getD ci default).slack := by
  by_cases hj : j = ci
  · subst hj
    by_cases hl : j < l.length
    · rw [getD_set_self l j _ default hl, if_pos ⟨rfl, hl⟩]
    · rw [List.set_eq_of_length_le (by omega), if_neg (by omega)]
  · rw [getD_set_ne l j ci _ default hj, if_neg (by tauto)]

theorem unsat_vars (s : LSState) (c : Nat) : (s.unsat c).vars = s.vars := rfl

theorem unsat_constraints (s : LSState) (c : Nat) : (s.unsat c).constraints = s.constraints := rfl

theorem unsat_is_unsat (s : LSState) (c : Nat) : (s.unsat c).is_unsat = s.is_unsat := rfl

theorem unsat_stack_eq (s : LSState) (c : Nat) :
    (s.unsat c).unsat_stack = s.unsat_stack ++ [c] := rfl

theorem flip_dec_step_constraints (s : LSState) (pb : PbCoefficient) :
    (flip_dec_step s pb).constraints =
      s.constraints.set pb.constraint_id
        { s.constraints.getD pb.constraint_id default with
          slack := s.constraint_slack pb.constraint_id - pb.coefficient } := by
  unfold flip_dec_step
  dsimp only
  split <;> rfl

theorem flip_dec_step_vars (s : LSState) (pb : PbCoefficient) :
    (flip_dec_step s pb).vars = s.vars := by
  unfold flip_dec_step
  dsimp only
  split <;> rfl

theorem flip_dec_step_is_unsat (s : LSState) (pb : PbCoefficient) :
    (flip_dec_step s pb).is_unsat = s.is_unsat := by
  unfold flip_dec_step
  dsimp only
  split <;> rfl

theorem flip_dec_step_stack (s : LSState) (pb : PbCoefficient) :
    (flip_dec_step s pb).unsat_stack =
      if s.constraint_slack pb.constraint_id - pb.coefficient < 0 ∧
         0 ≤ s.constraint_slack pb.constraint_id
      then s.unsat_stack ++ [pb.constraint_id] else s.unsat_stack := by
  unfold flip_dec_step constraint_slack
  dsimp only
  split <;> rfl

theorem flip_dec_step_length (s : LSState) (pb : PbCoefficient) :
    (flip_dec_step s pb).constraints.length = s.constraints.length := by
  rw [flip_dec_step_constraints]; simp

theorem flip_dec_step_slack (s : LSState) (pb : PbCoefficient) (ci : Nat) :
    (flip_dec_step s pb).constraint_slack ci =
      if pb.constraint_id = ci ∧ ci < s.constraints.length
      then s.constraint_slack ci - pb.coefficient else s.constraint_slack ci := by
  unfold constraint_slack
  rw [flip_dec_step_constraints, getD_set_slack_slack]
  by_cases h : pb.constraint_id = ci ∧ ci < s.constraints.length
  · rw [if_pos h, if_pos h]
    rw [h.1]
    rfl
  · rw [if_neg h, if_neg h]

/-- The guard of the `sat` call in `flip_walksat`'s slack-increasing
loop can never hold (the slack moved up from a non-negative value), so
the step is a pure slack update. -/
theorem flip_inc_step_eq (s : LSState) (pb : PbCoefficient) :
    flip_inc_step s pb =
      { s with constraints := (s.constraints.set pb.constraint_id
          { s.constraints.getD pb.constraint_id default with
            slack := s.constraint_slack pb.constraint_id + pb.coefficient }) } := by
  unfold flip_inc_step constraint_slack
  dsimp only
  rw [if_neg]
  rintro ⟨h1, h2⟩
  omega

theorem flip_inc_step_vars (s : LSState) (pb : PbCoefficient) :
    (flip_inc_step s pb).vars = s.vars := by
  rw [flip_inc_step_eq]

theorem flip_inc_step_stack (s : LSState) (pb : PbCoefficient) :
    (flip_inc_step s pb).unsat_stack = s.unsat_stack := by
  rw [flip_inc_step_eq]

theorem flip_inc_step_is_unsat (s : LSState) (pb : PbCoefficient) :
    (flip_inc_step s pb).is_unsat = s.is_unsat := by
  rw [flip_inc_step_eq]

theorem flip_inc_step_length (s : LSState) (pb : PbCoefficient) :
    (flip_inc_step s pb).constraints.length = s.constraints.length := by
  rw [flip_inc_step_eq]; simp

theorem flip_inc_step_slack (s : LSState) (pb : PbCoefficient) (ci : Nat) :
    (flip_inc_step s pb).constraint_slack ci =
      if pb.constraint_id = ci ∧ ci < s.constraints.length
      then s.constraint_slack ci + pb.coefficient else s.constraint_slack ci := by
  unfold constraint_slack
  rw [flip_inc_step_eq]
  rw [getD_set_slack_slack]
  by_cases h : pb.constraint_id = ci ∧ ci < s.constraints.length
  · rw [if_pos h, if_pos h, h.1]
    rfl
  · rw [if_neg h, if_neg h]

theorem init_dec_step_constraints (s : LSState) (pb : PbCoefficient) :
    (init_dec_step s pb).constraints =
      s.constraints.set pb.constraint_id
        { s.constraints.getD pb.constraint_id default with
          slack := s.constraint_slack pb.constraint_id - pb.coefficient } := rfl

theorem init_dec_step_vars (s : LSState) (pb : PbCoefficient) :
    (init_dec_step s pb).vars = s.vars := rfl

theorem init_dec_step_stack (s : LSState) (pb : PbCoefficient) :
    (init_dec_step s pb).unsat_stack = s.unsat_stack := rfl

theorem init_dec_step_is_unsat (s : LSState) (pb : PbCoefficient) :
    (init_dec_step s pb).is_unsat = s.is_unsat := rfl

theorem init_dec_step_length (s : LSState) (pb : PbCoefficient) :
    (init_dec_step s pb).constraints.length = s.constraints.length := by
  rw [init_dec_step_constraints]; simp

theorem init_dec_step_slack (s : LSState) (pb : PbCoefficient) (ci : Nat) :
    (init_dec_step s pb).constraint_slack ci =
      if pb.constraint_id = ci ∧ ci < s.constraints.length
      then s.constraint_slack ci - pb.coefficient else s.constraint_slack ci := by
  unfold constraint_slack
  rw [init_dec_step_constraints, getD_set_slack_slack]
  by_cases h : pb.constraint_id = ci ∧ ci < s.constraints.length
  · rw [if_pos h, if_pos h, h.1]
    rfl
  · rw [if_neg h, if_neg h]

/-! ### Fold lemmas over watch lists -/

theorem foldl_dec_vars (ps : List PbCoefficient) (s : LSState) :
    (ps.foldl flip_dec_step s).vars = s.vars := by
  induction ps generalizing s with
  | nil => rfl
  | cons pb rest ih => rw [List.foldl_cons, ih, flip_dec_step_vars]

theorem foldl_dec_length (ps : List PbCoefficient) (s : LSState) :
    (ps.foldl flip_dec_step s).constraints.length = s.constraints.length := by
  induction ps generalizing s with
  | nil => rfl
  | cons pb rest ih => rw [List.foldl_cons, ih, flip_dec_step_length]

theorem foldl_dec_is_unsat (ps : List PbCoefficient) (s : LSState) :
    (ps.foldl flip_dec_step s).is_unsat = s.is_unsat := by
  induction ps generalizing s with
  | nil => rfl
  | cons pb rest ih => rw [List.foldl_cons, ih, flip_dec_step_is_unsat]

theorem foldl_dec_slack (ps : List PbCoefficient) (s : LSState) (ci : Nat)
    (h : ci < s.constraints.length) :
    (ps.foldl flip_dec_step s).constraint_slack ci =
      s.constraint_slack ci - (watch_sum ps ci : Int) := by
  induction ps generalizing s with
  | nil => simp [watch_sum]
  | cons pb rest ih =>
    rw [List.foldl_cons, ih _ (by rw [flip_dec_step_length]; exact h),
        flip_dec_step_slack]
    unfold watch_sum
    simp only [List.map_cons, List.sum_cons]
    by_cases hc : pb.constraint_id = ci
    · rw [if_pos ⟨hc, h⟩, if_pos hc]
      push_cast
      ring
    · rw [if_neg (by tauto), if_neg hc]
      push_cast
      ring

theorem foldl_dec_stack_mono (ps : List PbCoefficient) (s : LSState) (x : Nat)
    (hx : x ∈ s.unsat_stack) : x ∈ (ps.foldl flip_dec_step s).unsat_stack := by
  induction ps generalizing s with
  | nil => exact hx
  | cons pb rest ih =>
    rw [List.foldl_cons]
    apply ih
    rw [flip_dec_step_stack]
    split
    · exact List.mem_append_left _ hx
    · exact hx

theorem flip_dec_step_stackinv (s : LSState) (pb : PbCoefficient) (h : StackInv s) :
    StackInv (flip_dec_step s pb) := by
  intro ci hlen hneg
  rw [flip_dec_step_length] at hlen
  rw [flip_dec_step_slack] at hneg
  rw [flip_dec_step_stack]
  by_cases hc : pb.constraint_id = ci
  · subst hc
    rw [if_pos ⟨rfl, hlen⟩] at hneg
    by_cases hold : 0 ≤ s.constraint_slack pb.constraint_id
    · rw [if_pos ⟨hneg, hold⟩]
      exact List.mem_append_right _ (List.mem_singleton_self _)
    · have hin := h pb.constraint_id hlen (by omega)
      split
      · exact List.mem_append_left _ hin
      · exact hin
  · rw [if_neg (by tauto)] at hneg
    have hin := h ci hlen hneg
    split
    · exact List.mem_append_left _ hin
    · exact hin

theorem foldl_dec_stackinv (ps : List PbCoefficient) (s : LSState) (h : StackInv s) :
    StackInv (ps.foldl flip_dec_step s) := by
  induction ps generalizing s with
  | nil => exact h
  | cons pb rest ih => exact ih _ (flip_dec_step_stackinv s pb h)

theorem foldl_inc_vars (ps : List PbCoefficient) (s : LSState) :
    (ps.foldl flip_inc_step s).vars = s.vars := by
  induction ps generalizing s with
  | nil => rfl
  | cons pb rest ih => rw [List.foldl_cons, ih, flip_inc_step_vars]

theorem foldl_inc_length (ps : List PbCoefficient) (s : LSState) :
    (ps.foldl flip_inc_step s).constraints.length = s.constraints.length := by
  induction ps generalizing s with
  | nil => rfl
  | cons pb rest ih => rw [List.foldl_cons, ih, flip_inc_step_length]

theorem foldl_inc_is_unsat (ps : List PbCoefficient) (s : LSState) :
    (ps.foldl flip_inc_step s).is_unsat = s.is_unsat := by
  induction ps generalizing s with
  | nil => rfl
  | cons pb rest ih => rw [List.foldl_cons, ih, flip_inc_step_is_unsat]

theorem foldl_inc_stack (ps : List PbCoefficient) (s : LSState) :
    (ps.foldl flip_inc_step s).unsat_stack = s.unsat_stack := by
  induction ps generalizing s with
  | nil => rfl
  | cons pb rest ih => rw [List.foldl_cons, ih, flip_inc_step_stack]

theorem foldl_inc_slack (ps : List PbCoefficient) (s : LSState) (ci : Nat)
    (h : ci < s.constraints.length) :
    (ps.foldl flip_inc_step s).constraint_slack ci =
      s.constraint_slack ci + (watch_sum ps ci : Int) := by
  induction ps generalizing s with
  | nil => simp [watch_sum]
  | cons pb rest ih =>
    rw [List.foldl_cons, ih _ (by rw [flip_inc_step_length]; exact h),
        flip_inc_step_slack]
    unfold watch_sum
    simp only [List.map_cons, List.sum_cons]
    by_cases hc : pb.constraint_id = ci
    · rw [if_pos ⟨hc, h⟩, if_pos hc]
      push_cast
      ring
    · rw [if_neg (by tauto), if_neg hc]
      push_cast
      ring

theorem foldl_inc_stackinv (ps : List PbCoefficient) (s : LSState) (h : StackInv s) :
    StackInv (ps.foldl flip_inc_step s) := by
  induction ps generalizing s with
  | nil => exact h
  | cons pb rest ih =>
    apply ih
    intro ci hlen hneg
    rw [flip_inc_step_length] at hlen
    rw [flip_inc_step_slack] at hneg
    rw [flip_inc_step_stack]
    by_cases hc : pb.constraint_id = ci
    · rw [if_pos ⟨hc, hlen⟩] at hneg
      exact h ci hlen (by omega)
    · rw [if_neg (by tauto)] at hneg
      exact h ci hlen hneg

theorem foldl_initdec_vars (ps : List PbCoefficient) (s : LSState) :
    (ps.foldl init_dec_step s).vars = s.vars := by
  induction ps generalizing s with
  | nil => rfl
  | cons pb rest ih => rw [List.foldl_cons, ih, init_dec_step_vars]

theorem foldl_initdec_length (ps : List PbCoefficient) (s : LSState) :
    (ps.foldl init_dec_step s).constraints.length = s.constraints.length := by
  induction ps generalizing s with
  | nil => rfl
  | cons pb rest ih => rw [List.foldl_cons, ih, init_dec_step_length]

theorem foldl_initdec_stack (ps : List PbCoefficient) (s : LSState) :
    (ps.foldl init_dec_step s).unsat_stack = s.unsat_stack := by
  induction ps generalizing s with
  | nil => rfl
  | cons pb rest ih => rw [List.foldl_cons, ih, init_dec_step_stack]

theorem foldl_initdec_is_unsat (ps : List PbCoefficient) (s : LSState) :
    (ps.foldl init_dec_step s).is_unsat = s.is_unsat := by
  induction ps generalizing s with
  | nil => rfl
  | cons pb rest ih => rw [List.foldl_cons, ih, init_dec_step_is_unsat]

theorem foldl_initdec_slack (ps : List PbCoefficient) (s : LSState) (ci : Nat)
    (h : ci < s.constraints.length) :
    (ps.foldl init_dec_step s).constraint_slack ci =
      s.constraint_slack ci - (watch_sum ps ci : Int) := by
  induction ps generalizing s with
  | nil => simp [watch_sum]
  | cons pb rest ih =>
    rw [List.foldl_cons, ih _ (by rw [init_dec_step_length]; exact h),
        init_dec_step_slack]
    unfold watch_sum
    simp only [List.map_cons, List.sum_cons]
    by_cases hc : pb.constraint_id = ci
    · rw [if_pos ⟨hc, h⟩, if_pos hc]
      push_cast
      ring
    · rw [if_neg (by tauto), if_neg hc]
      push_cast
      ring

/-! ### Characterization of `flip_walksat` -/

theorem get_watch_update (vi : VariableInfo) (b bv : Bool) (f : Nat) :
    ({ vi with value := bv, flips := f } : VariableInfo).get_watch b = vi.get_watch b := by
  cases b <;> rfl

theorem constraint_slack_vars (s : LSState) (vs : List VariableInfo) (ci : Nat) :
    ({ s with vars := vs } : LSState).constraint_slack ci = s.constraint_slack ci := rfl

theorem flip_walksat_vars (s : LSState) (v : Nat) :
    (s.flip_walksat v).vars = s.vars.set v
      { s.vars.getD v default with
        value := !(s.vars.getD v default).value,
        flips := (s.vars.getD v default).flips + 1 } := by
  unfold flip_walksat
  dsimp only
  rw [foldl_inc_vars, foldl_dec_vars]

theorem flip_walksat_length (s : LSState) (v : Nat) :
    (s.flip_walksat v).constraints.length = s.constraints.length := by
  unfold flip_walksat
  dsimp only
  rw [foldl_inc_length, foldl_dec_length]

theorem flip_walksat_num_vars (s : LSState) (v : Nat) :
    (s.flip_walksat v).num_vars = s.num_vars := by
  unfold num_vars
  rw [flip_walksat_vars]
  simp

theorem flip_walksat_is_unsat (s : LSState) (v : Nat) :
    (s.flip_walksat v).is_unsat = s.is_unsat := by
  unfold flip_walksat
  dsimp only
  rw [foldl_inc_is_unsat, foldl_dec_is_unsat]

theorem flip_core_slack (vsnew : List VariableInfo) (s : LSState)
    (psT psF : List PbCoefficient) (ci : Nat) (h : ci < s.constraints.length) :
    (psF.foldl flip_inc_step
        (psT.foldl flip_dec_step { s with vars := vsnew })).constraint_slack ci =
      s.constraint_slack ci - (watch_sum psT ci : Int) + (watch_sum psF ci : Int) := by
  have hb : ci < ({ s with vars := vsnew } : LSState).constraints.length := h
  rw [foldl_inc_slack _ _ _ (by rw [foldl_dec_length]; exact hb),
      foldl_dec_slack _ _ _ hb, constraint_slack_vars]

theorem flip_walksat_slack (s : LSState) (v ci : Nat) (h : ci < s.constraints.length) :
    (s.flip_walksat v).constraint_slack ci =
      s.constraint_slack ci
        - (watch_sum ((s.vars.getD v default).get_watch (!(s.vars.getD v default).value)) ci : Int)
        + (watch_sum ((s.vars.getD v default).get_watch ((s.vars.getD v default).value)) ci : Int) := by
  unfold flip_walksat
  dsimp only
  rw [get_watch_update, get_watch_update, Bool.not_not]
  exact flip_core_slack _ s _ _ ci h

theorem flip_walksat_stackinv (s : LSState) (v : Nat) (h : StackInv s) :
    StackInv (s.flip_walksat v) := by
  unfold flip_walksat
  dsimp only
  apply foldl_inc_stackinv
  apply foldl_dec_stackinv
  intro ci hlen hneg
  exact h ci hlen hneg

theorem flip_walksat_var_fields (s : LSState) (v w : Nat) :
    ((s.flip_walksat v).vars.getD w default).unit = (s.vars.getD w default).unit ∧
    ((s.flip_walksat v).vars.getD w default).score = (s.vars.getD w default).score ∧
    ((s.flip_walksat v).vars.getD w default).slack_score
        = (s.vars.getD w default).slack_score ∧
    (∀ b, ((s.flip_walksat v).vars.getD w default).get_watch b
        = (s.vars.getD w default).get_watch b) := by
  rw [flip_walksat_vars]
  by_cases hw : v = w
  · subst hw
    by_cases hl : v < s.vars.length
    · rw [getD_set_self _ _ _ _ hl]
      exact ⟨rfl, rfl, rfl, fun b => by cases b <;> rfl⟩
    · rw [List.set_eq_of_length_le (by omega)]
      exact ⟨rfl, rfl, rfl, fun b => rfl⟩
  · rw [getD_set_ne _ _ _ _ _ hw]
    exact ⟨rfl, rfl, rfl, fun b => rfl⟩

theorem flip_walksat_cur (s : LSState) (v w : Nat) :
    (s.flip_walksat v).cur_solution w =
      if v = w ∧ v < s.vars.length
      then !(s.cur_solution w) else s.cur_solution w := by
  unfold cur_solution
  rw [flip_walksat_vars]
  by_cases hw : v = w
  · subst hw
    by_cases hl : v < s.vars.length
    · rw [getD_set_self _ _ _ _ hl, if_pos ⟨rfl, hl⟩]
    · rw [List.set_eq_of_length_le (by omega), if_neg (by tauto)]
  · rw [getD_set_ne _ _ _ _ _ hw, if_neg (by tauto)]

theorem foldl_dec_fields (ps : List PbCoefficient) (s : LSState) (ci : Nat) :
    (((ps.foldl flip_dec_step s).constraints.getD ci default).k
        = ((s.constraints.getD ci default)).k) ∧
    (((ps.foldl flip_dec_step s).constraints.getD ci default).id
        = ((s.constraints.getD ci default)).id) ∧
    (((ps.foldl flip_dec_step s).constraints.getD ci default).literals
        = ((s.constraints.getD ci default)).literals) := by
  induction ps generalizing s with
  | nil => exact ⟨rfl, rfl, rfl⟩
  | cons pb rest ih =>
    rw [List.foldl_cons]
    obtain ⟨h1, h2, h3⟩ := ih (flip_dec_step s pb)
    rw [h1, h2, h3, flip_dec_step_constraints]
    exact getD_set_slack s.constraints pb.constraint_id ci _

theorem foldl_inc_fields (ps : List PbCoefficient) (s : LSState) (ci : Nat) :
    (((ps.foldl flip_inc_step s).constraints.getD ci default).k
        = ((s.constraints.getD ci default)).k) ∧
    (((ps.foldl flip_inc_step s).constraints.getD ci default).id
        = ((s.constraints.getD ci default)).id) ∧
    (((ps.foldl flip_inc_step s).constraints.getD ci default).literals
        = ((s.constraints.getD ci default)).literals) := by
  induction ps generalizing s with
  | nil => exact ⟨rfl, rfl, rfl⟩
  | cons pb rest ih =>
    rw [List.foldl_cons]
    obtain ⟨h1, h2, h3⟩ := ih (flip_inc_step s pb)
    rw [h1, h2, h3, flip_inc_step_eq]
    exact getD_set_slack s.constraints pb.constraint_id ci _

theorem foldl_initdec_fields (ps : List PbCoefficient) (s : LSState) (ci : Nat) :
    (((ps.foldl init_dec_step s).constraints.getD ci default).k
        = ((s.constraints.getD ci default)).k) ∧
    (((ps.foldl init_dec_step s).constraints.getD ci default).id
        = ((s.constraints.getD ci default)).id) ∧
    (((ps.foldl init_dec_step s).constraints.getD ci default).literals
        = ((s.constraints.getD ci default)).literals) := by
  induction ps generalizing s with
  | nil => exact ⟨rfl, rfl, rfl⟩
  | cons pb rest ih =>
    rw [List.foldl_cons]
    obtain ⟨h1, h2, h3⟩ := ih (init_dec_step s pb)
    rw [h1, h2, h3, init_dec_step_constraints]
    exact getD_set_slack s.constraints pb.constraint_id ci _

theorem flip_core_fields (vsnew : List VariableInfo) (s : LSState)
    (psT psF : List PbCoefficient) (ci : Nat) :
    (((psF.foldl flip_inc_step
          (psT.foldl flip_dec_step { s with vars := vsnew })).constraints.getD ci default).k
        = (s.constraints.getD ci default).k) ∧
    (((psF.foldl flip_inc_step
          (psT.foldl flip_dec_step { s with vars := vsnew })).constraints.getD ci default).id
        = (s.constraints.getD ci default).id) ∧
    (((psF.foldl flip_inc_step
          (psT.foldl flip_dec_step { s with vars := vsnew })).constraints.getD ci default).literals
        = (s.constraints.getD ci default).literals) := by
  obtain ⟨h1, h2, h3⟩ := foldl_inc_fields psF
    (psT.foldl flip_dec_step { s with vars := vsnew }) ci
  rw [h1, h2, h3]
  exact foldl_dec_fields psT _ ci

theorem flip_walksat_fields (s : LSState) (v ci : Nat) :
    (((s.flip_walksat v).constraints.getD ci default).k
        = ((s.constraints.getD ci default)).k) ∧
    (((s.flip_walksat v).constraints.getD ci default).id
        = ((s.constraints.getD ci default)).id) ∧
    (((s.flip_walksat v).constraints.getD ci default).literals
        = ((s.constraints.getD ci default)).literals) := by
  unfold flip_walksat
  dsimp only
  exact flip_core_fields _ s _ _ ci

/-! ### Characterization of `init_slack` -/

theorem init_slack_var_vars (s : LSState) (v : Nat) :
    (init_slack_var s v).vars = s.vars := by
  unfold init_slack_var
  dsimp only
  rw [foldl_initdec_vars]

theorem init_slack_var_stack (s : LSState) (v : Nat) :
    (init_slack_var s v).unsat_stack = s.unsat_stack := by
  unfold init_slack_var
  dsimp only
  rw [foldl_initdec_stack]

theorem init_slack_var_is_unsat (s : LSState) (v : Nat) :
    (init_slack_var s v).is_unsat = s.is_unsat := by
  unfold init_slack_var
  dsimp only
  rw [foldl_initdec_is_unsat]

theorem init_slack_var_length (s : LSState) (v : Nat) :
    (init_slack_var s v).constraints.length = s.constraints.length := by
  unfold init_slack_var
  dsimp only
  rw [foldl_initdec_length]

theorem init_slack_var_slack (s : LSState) (v ci : Nat) (h : ci < s.constraints.length) :
    (init_slack_var s v).constraint_slack ci =
      s.constraint_slack ci
        - (watch_sum ((s.vars.getD v default).get_watch ((s.vars.getD v default).value)) ci
            : Int) := by
  unfold init_slack_var
  dsimp only
  rw [foldl_initdec_slack _ _ _ h]

theorem init_slack_var_fields (s : LSState) (v ci : Nat) :
    (((init_slack_var s v).constraints.getD ci default).k
        = (s.constraints.getD ci default).k) ∧
    (((init_slack_var s v).constraints.getD ci default).id
        = (s.constraints.getD ci default).id) ∧
    (((init_slack_var s v).constraints.getD ci default).literals
        = (s.constraints.getD ci default).literals) := by
  unfold init_slack_var
  dsimp only
  exact foldl_initdec_fields _ _ ci

theorem foldl_isv_vars (L : List Nat) (s : LSState) :
    ((L.foldl init_slack_var s).vars = s.vars) := by
  induction L generalizing s with
  | nil => rfl
  | cons v L ih => rw [List.foldl_cons, ih, init_slack_var_vars]

theorem foldl_isv_stack (L : List Nat) (s : LSState) :
    ((L.foldl init_slack_var s).unsat_stack = s.unsat_stack) := by
  induction L generalizing s with
  | nil => rfl
  | cons v L ih => rw [List.foldl_cons, ih, init_slack_var_stack]

theorem foldl_isv_is_unsat (L : List Nat) (s : LSState) :
    ((L.foldl init_slack_var s).is_unsat = s.is_unsat) := by
  induction L generalizing s with
  | nil => rfl
  | cons v L ih => rw [List.foldl_cons, ih, init_slack_var_is_unsat]

theorem foldl_isv_length (L : List Nat) (s : LSState) :
    ((L.foldl init_slack_var s).constraints.length = s.constraints.length) := by
  induction L generalizing s with
  | nil => rfl
  | cons v L ih => rw [List.foldl_cons, ih, init_slack_var_length]

theorem foldl_isv_fields (L : List Nat) (s : LSState) (ci : Nat) :
    (((L.foldl init_slack_var s).constraints.getD ci default).k
        = (s.constraints.getD ci default).k) ∧
    (((L.foldl init_slack_var s).constraints.getD ci default).id
        = (s.constraints.getD ci default).id) ∧
    (((L.foldl init_slack_var s).constraints.getD ci default).literals
        = (s.constraints.getD ci default).literals) := by
  induction L generalizing s with
  | nil => exact ⟨rfl, rfl, rfl⟩
  | cons v L ih =>
    rw [List.foldl_cons]
    obtain ⟨h1, h2, h3⟩ := ih (init_slack_var s v)
    rw [h1, h2, h3]
    exact init_slack_var_fields s v ci

theorem foldl_isv_slack (L : List Nat) (s : LSState) (ci : Nat)
    (h : ci < s.constraints.length) :
    (L.foldl init_slack_var s).constraint_slack ci =
      s.constraint_slack ci
        - ((L.map (fun v =>
              watch_sum ((s.vars.getD v default).get_watch
                ((s.vars.getD v default).value)) ci)).sum : Int) := by
  induction L generalizing s with
  | nil => simp
  | cons v L ih =>
    rw [List.foldl_cons, ih _ (by rw [init_slack_var_length]; exact h),
        init_slack_var_vars, init_slack_var_slack _ _ _ h]
    simp only [List.map_cons, List.sum_cons]
    push_cast
    ring

theorem init_push_step_constraints (s : LSState) (c : Nat) :
    (init_push_step s c).constraints = s.constraints := by
  unfold init_push_step
  split <;> rfl

theorem init_push_step_vars (s : LSState) (c : Nat) :
    (init_push_step s c).vars = s.vars := by
  unfold init_push_step
  split <;> rfl

theorem init_push_step_is_unsat (s : LSState) (c : Nat) :
    (init_push_step s c).is_unsat = s.is_unsat := by
  unfold init_push_step
  split <;> rfl

theorem init_push_step_slack (s : LSState) (c ci : Nat) :
    (init_push_step s c).constraint_slack ci = s.constraint_slack ci := by
  unfold constraint_slack
  rw [init_push_step_constraints]

theorem foldl_push_constraints (L : List Nat) (s : LSState) :
    ((L.foldl init_push_step s).constraints = s.constraints) := by
  induction L generalizing s with
  | nil => rfl
  | cons c L ih => rw [List.foldl_cons, ih, init_push_step_constraints]

theorem foldl_push_vars (L : List Nat) (s : LSState) :
    ((L.foldl init_push_step s).vars = s.vars) := by
  induction L generalizing s with
  | nil => rfl
  | cons c L ih => rw [List.foldl_cons, ih, init_push_step_vars]

theorem foldl_push_is_unsat (L : List Nat) (s : LSState) :
    ((L.foldl init_push_step s).is_unsat = s.is_unsat) := by
  induction L generalizing s with
  | nil => rfl
  | cons c L ih => rw [List.foldl_cons, ih, init_push_step_is_unsat]

theorem foldl_push_slack (L : List Nat) (s : LSState) (ci : Nat) :
    ((L.foldl init_push_step s).constraint_slack ci = s.constraint_slack ci) := by
  unfold constraint_slack
  rw [foldl_push_constraints]

theorem foldl_push_mono (L : List Nat) (s : LSState) (x : Nat)
    (hx : x ∈ s.unsat_stack) : x ∈ (L.foldl init_push_step s).unsat_stack := by
  induction L generalizing s with
  | nil => exact hx
  | cons c L ih =>
    rw [List.foldl_cons]
    apply ih
    unfold init_push_step
    split
    · exact List.mem_append_left _ hx
    · exact hx

theorem foldl_push_mem (L : List Nat) (s : LSState) (ci : Nat) (hci : ci ∈ L)
    (hneg : s.constraint_slack ci < 0) :
    ci ∈ (L.foldl init_push_step s).unsat_stack := by
  induction L generalizing s with
  | nil => cases hci
  | cons c L ih =>
    rw [List.foldl_cons]
    rcases List.mem_cons.mp hci with hc | hc
    · subst hc
      apply foldl_push_mono
      unfold init_push_step
      rw [if_pos hneg]
      exact List.mem_append_right _ (List.mem_singleton_self _)
    · apply ih _ hc
      rw [init_push_step_slack]
      exact hneg

theorem init_slack_vars (s : LSState) : (s.init_slack).vars = s.vars := by
  unfold init_slack
  dsimp only
  rw [foldl_push_vars, foldl_isv_vars]

theorem init_slack_is_unsat (s : LSState) : (s.init_slack).is_unsat = s.is_unsat := by
  unfold init_slack
  dsimp only
  rw [foldl_push_is_unsat, foldl_isv_is_unsat]

theorem init_slack_length (s : LSState) :
    (s.init_slack).constraints.length = s.constraints.length := by
  unfold init_slack
  dsimp only
  rw [foldl_push_constraints, foldl_isv_length]

theorem init_slack_fields (s : LSState) (ci : Nat) :
    (((s.init_slack).constraints.getD ci default).k = (s.constraints.getD ci default).k) ∧
    (((s.init_slack).constraints.getD ci default).id = (s.constraints.getD ci default).id) ∧
    (((s.init_slack).constraints.getD ci default).literals
        = (s.constraints.getD ci default).literals) := by
  unfold init_slack
  dsimp only
  rw [foldl_push_constraints]
  exact foldl_isv_fields _ s ci

theorem init_slack_slack (s : LSState) (ci : Nat) (h : ci < s.constraints.length) :
    (s.init_slack).constraint_slack ci =
      s.constraint_slack ci - (s.lhs_value ci : Int) := by
  unfold init_slack
  dsimp only
  rw [foldl_push_slack, foldl_isv_slack _ _ _ h]
  rfl

theorem init_slack_stackinv (s : LSState) : StackInv (s.init_slack) := by
  intro ci hlen hneg
  unfold init_slack at *
  dsimp only at *
  rw [foldl_push_constraints, foldl_isv_length] at hlen
  rw [foldl_push_slack] at hneg
  apply foldl_push_mem _ _ _ _ hneg
  apply List.mem_range.mpr
  unfold num_constraints
  rw [foldl_isv_length]
  exact hlen

/-! ### Preservation along reachable states -/

theorem lhs_value_congr_vars (s t : LSState) (h : s.vars = t.vars) (ci : Nat) :
    s.lhs_value ci = t.lhs_value ci := by
  unfold lhs_value num_vars cur_solution
  rw [h]

theorem flip_walksat_lhs (s : LSState) (v ci : Nat) (hv : v < s.num_vars) :
    ((s.flip_walksat v).lhs_value ci : Int) =
      (s.lhs_value ci : Int)
        - (watch_sum ((s.vars.getD v default).get_watch ((s.vars.getD v default).value)) ci
            : Int)
        + (watch_sum ((s.vars.getD v default).get_watch (!(s.vars.getD v default).value)) ci
            : Int) := by
  have hvlen : v < s.vars.length := by unfold num_vars at hv; omega
  have hset : (s.flip_walksat v).vars.getD v default
      = { s.vars.getD v default with
          value := !(s.vars.getD v default).value,
          flips := (s.vars.getD v default).flips + 1 } := by
    rw [flip_walksat_vars]
    exact getD_set_self _ _ _ _ hvlen
  have hne : ∀ w, w ≠ v → (s.flip_walksat v).vars.getD w default = s.vars.getD w default := by
    intro w hw
    rw [flip_walksat_vars]
    exact getD_set_ne _ _ _ _ _ (fun he => hw he.symm)
  have hupd := sum_range_update s.num_vars v
    (fun w => watch_sum ((s.vars.getD w default).get_watch
        ((s.vars.getD w default).value)) ci)
    (fun w => watch_sum (((s.flip_walksat v).vars.getD w default).get_watch
        (((s.flip_walksat v).vars.getD w default).value)) ci)
    hv (fun w hw => by simp only [hne w hw])
  simp only [hset, get_watch_update] at hupd
  unfold lhs_value cur_solution
  rw [flip_walksat_num_vars]
  omega

theorem reachable_skeleton (s0 s : LSState) (h : Reachable s0 s) :
    s.vars.length = s0.vars.length ∧
    s.constraints.length = s0.constraints.length ∧
    (∀ w, ((s.vars.getD w default).unit = (s0.vars.getD w default).unit) ∧
          ∀ b, (s.vars.getD w default).get_watch b = (s0.vars.getD w default).get_watch b) ∧
    (∀ ci, ((s.constraints.getD ci default).k = (s0.constraints.getD ci default).k) ∧
           ((s.constraints.getD ci default).id = (s0.constraints.getD ci default).id) ∧
           ((s.constraints.getD ci default).literals
              = (s0.constraints.getD ci default).literals)) := by
  induction h with
  | init hf =>
    refine ⟨by rw [init_slack_vars], init_slack_length _,
            fun w => by rw [init_slack_vars]; exact ⟨rfl, fun b => rfl⟩,
            fun ci => init_slack_fields _ ci⟩
  | step s v hr hv hu ih =>
    obtain ⟨ih1, ih2, ih3, ih4⟩ := ih
    refine ⟨?_, ?_, ?_, ?_⟩
    · rw [flip_walksat_vars]
      simp [ih1]
    · rw [flip_walksat_length]
      exact ih2
    · intro w
      obtain ⟨f1, _, _, f4⟩ := flip_walksat_var_fields s v w
      exact ⟨by rw [f1]; exact (ih3 w).1, fun b => by rw [f4 b]; exact (ih3 w).2 b⟩
    · intro ci
      obtain ⟨f1, f2, f3⟩ := flip_walksat_fields s v ci
      exact ⟨by rw [f1]; exact (ih4 ci).1, by rw [f2]; exact (ih4 ci).2.1,
             by rw [f3]; exact (ih4 ci).2.2⟩

theorem reachable_invs (s0 s : LSState) (h : Reachable s0 s) :
    SlackInv s ∧ StackInv s := by
  induction h with
  | init hf =>
    refine ⟨?_, init_slack_stackinv s0⟩
    intro ci hlen
    rw [init_slack_length] at hlen
    rw [init_slack_slack _ _ hlen]
    have hk := hf.1 ci hlen
    have hfields := init_slack_fields s0 ci
    unfold constraint_k
    rw [hfields.1]
    have hlhs : (s0.init_slack).lhs_value ci = s0.lhs_value ci :=
      lhs_value_congr_vars _ _ (init_slack_vars s0) ci
    rw [hlhs]
    unfold constraint_slack
    omega
  | step s v hr hv hu ih =>
    obtain ⟨hsl, hst⟩ := ih
    refine ⟨?_, flip_walksat_stackinv s v hst⟩
    intro ci hlen
    rw [flip_walksat_length] at hlen
    rw [flip_walksat_slack _ _ _ hlen]
    have hs := hsl ci hlen
    have hk := (flip_walksat_fields s v ci).1
    have hlhs := flip_walksat_lhs s v ci hv
    unfold constraint_k at *
    rw [hk]
    omega

theorem constraint_coefficient_congr (s t : LSState) (c c' : Constraint) (l : Lit)
    (hw : ∀ w b, (s.vars.getD w default).get_watch b = (t.vars.getD w default).get_watch b)
    (hid : c.id = c'.id) :
    s.constraint_coefficient c l = t.constraint_coefficient c' l := by
  unfold constraint_coefficient
  rw [hw, hid]

theorem reachable_coherent (s0 s : LSState) (h : Reachable s0 s) (hc : Coherent s0) :
    Coherent s := by
  obtain ⟨hvl, hcl, hvar, hcon⟩ := reachable_skeleton s0 s h
  constructor
  · intro ci hci l hl
    rw [(hcon ci).2.2] at hl
    have hlt := hc.1 ci (by omega) l hl
    unfold num_vars at *
    omega
  · intro ci hci v hv b
    rw [hcl] at hci
    have h2 := hc.2 ci hci v (by unfold num_vars at *; omega) b
    unfold lit_sum at h2 ⊢
    dsimp only at h2 ⊢
    rw [(hcon ci).2.2, (hvar v).2 b]
    rw [List.map_congr_left (fun l _ =>
      constraint_coefficient_congr s s0 _ _ l (fun w b => (hvar w).2 b) (hcon ci).2.1)]
    exact h2

/-! ### Literal/watch partition of the constraint value -/

theorem partition_sum (s : LSState) (c : Constraint) (N : Nat) (lits : List Lit)
    (hvars : ∀ l ∈ lits, l.var < N) :
    ((List.range N).map (fun v =>
        ((lits.filter (fun l => l.var == v && (!l.sign) == s.cur_solution v)).map
          (fun l => s.constraint_coefficient c l)).sum)).sum
      = (lits.map (fun l =>
          if s.is_true_literal l then s.constraint_coefficient c l else 0)).sum := by
  induction lits with
  | nil => simp
  | cons x xs ih =>
    have hx : x.var < N := hvars x (List.mem_cons_self x xs)
    have hxs : ∀ l ∈ xs, l.var < N := fun l hl => hvars l (List.mem_cons_of_mem x hl)
    rw [List.map_congr_left (g := fun v =>
        (if (x.var == v && (!x.sign) == s.cur_solution v) then s.constraint_coefficient c x
         else 0)
        + ((xs.filter (fun l => l.var == v && (!l.sign) == s.cur_solution v)).map
            (fun l => s.constraint_coefficient c l)).sum)
      (fun v _ => sum_filter_map_cons x xs _ _)]
    rw [sum_map_add, ih hxs]
    rw [sum_range_single N x.var _ hx ?hz]
    case hz =>
      intro v hv
      have hb : (x.var == v) = false := by
        simp only [beq_eq_false_iff_ne, ne_eq]
        exact fun he => hv (he ▸ rfl)
      rw [hb, Bool.false_and, if_neg (by simp)]
    simp only [beq_self_eq_true, Bool.true_and, List.map_cons, List.sum_cons]
    have hlit : (if ((!x.sign) == s.cur_solution x.var : Bool)
          then s.constraint_coefficient c x else 0)
        = if s.is_true_literal x then s.constraint_coefficient c x else 0 := by
      unfold is_true_literal
      cases hs : x.sign <;> cases hcv : s.cur_solution x.var <;> simp [hs, hcv]
    rw [hlit]

theorem lhs_value_eq_constraint_value (s : LSState) (hc : Coherent s) (ci : Nat)
    (hci : ci < s.constraints.length) :
    s.lhs_value ci = s.constraint_value (s.constraints.getD ci default) := by
  unfold lhs_value
  rw [List.map_congr_left (g := fun v => s.lit_sum ci v (s.cur_solution v))
    (fun v hv => ((hc.2 ci hci v (List.mem_range.mp hv) _).symm))]
  unfold lit_sum constraint_value
  dsimp only
  exact partition_sum s _ s.num_vars _ (hc.1 ci hci)

/-- C2: at every observable point of a try (right after `init_slack` in
`reinit`, and after every `flip_walksat` of a real non-unit variable),
the incrementally maintained slack of every constraint equals `k` minus
the sum of the coefficients of the constraint's currently-true
literals. -/
theorem slack_matches_constraint_value (s0 s : LSState) (h : LSState.Reachable s0 s)
    (hc : LSState.Coherent s0) :
    ∀ ci < s.num_constraints,
      s.constraint_slack ci =
        (s.constraint_k ci : Int)
          - (s.constraint_value (s.constraints.getD ci default) : Int) := by
  intro ci hci
  have hs := (reachable_invs s0 s h).1 ci hci
  rw [hs, lhs_value_eq_constraint_value s (reachable_coherent s0 s h hc) ci hci]

/-- C2 witness: the invariant instantiated at the concrete fresh state
`exState` right after `init_slack` (slack −1 = k 0 minus value 1). -/
theorem slack_matches_constraint_value_witness :
    (ZSAT.exState.init_slack).constraint_slack 0 =
      ((ZSAT.exState.init_slack).constraint_k 0 : Int)
        - ((ZSAT.exState.init_slack).constraint_value
            ((ZSAT.exState.init_slack).constraints.getD 0 default) : Int) :=
  slack_matches_constraint_value ZSAT.exState _
    (Reachable.init ZSAT.exState (by decide)) (by decide) 0 (by decide)

theorem check_result_true_stack (s : LSState) (h : s.check_result = LiftedBool.True) :
    s.unsat_stack = [] := by
  unfold check_result at h
  by_cases h1 : s.is_unsat
  · rw [if_pos h1] at h
    cases h
  · rw [if_neg h1] at h
    by_cases h2 : s.unsat_stack.isEmpty
    · exact List.isEmpty_iff.mp h2
    · rw [if_neg h2] at h
      cases h

theorem extract_model_getD (s : LSState) (v : Nat) (hv : v < s.num_vars) :
    (s.extract_model).getD v LiftedBool.Undefined =
      if s.cur_solution v then LiftedBool.True else LiftedBool.False := by
  unfold extract_model
  rw [List.getD_eq_getElem?_getD, List.getElem?_map, List.getElem?_range hv]
  rfl

/-- C3: whenever `check`'s result computation yields `True` (Satisfied)
in a reachable state, the extracted model assigns every non-sentinel
variable its current solution value, and every constraint is satisfied:
its slack is non-negative and its currently-true coefficient sum is at
most `k`. -/
theorem check_satisfied_sound (s0 s : LSState) (h : LSState.Reachable s0 s)
    (hc : LSState.Coherent s0) (hres : s.check_result = LiftedBool.True) :
    (∀ v < s.num_vars, (s.extract_model).getD v LiftedBool.Undefined =
        if s.cur_solution v then LiftedBool.True else LiftedBool.False) ∧
    (∀ ci < s.num_constraints,
      0 ≤ s.constraint_slack ci ∧
      s.constraint_value (s.constraints.getD ci default) ≤ s.constraint_k ci) := by
  refine ⟨fun v hv => extract_model_getD s v hv, fun ci hci => ?_⟩
  obtain ⟨hsl, hst⟩ := reachable_invs s0 s h
  have hempty := check_result_true_stack s hres
  have hge : 0 ≤ s.constraint_slack ci := by
    by_contra hlt
    have hmem := hst ci hci (by omega)
    rw [hempty] at hmem
    cases hmem
  refine ⟨hge, ?_⟩
  have hs := hsl ci hci
  rw [lhs_value_eq_constraint_value s (reachable_coherent s0 s h hc) ci hci] at hs
  omega

/-- C3 witness: applied to the concrete satisfied state reached by
`init_slack` from `exStateSat` (the model reports `x0 = True` and
constraint 0 has slack 0 with value 1 ≤ k 1). -/
theorem check_satisfied_sound_witness :
    ((ZSAT.exStateSat.init_slack).extract_model).getD 0 LiftedBool.Undefined
      = LiftedBool.True ∧
    0 ≤ (ZSAT.exStateSat.init_slack).constraint_slack 0 ∧
    (ZSAT.exStateSat.init_slack).constraint_value
        ((ZSAT.exStateSat.init_slack).constraints.getD 0 default)
      ≤ (ZSAT.exStateSat.init_slack).constraint_k 0 := by
  have h := check_satisfied_sound ZSAT.exStateSat _
    (Reachable.init ZSAT.exStateSat (by decide)) (by decide) (by decide)
  refine ⟨?_, (h.2 0 (by decide)).1, (h.2 0 (by decide)).2⟩
  rw [h.1 0 (by decide)]
  decide

theorem constraint_slack_oob (s : LSState) (ci : Nat) (h : s.constraints.length ≤ ci) :
    s.constraint_slack ci = 0 := by
  unfold constraint_slack
  rw [List.getD_eq_default _ _ h]
  rfl

/-- C4: flipping a real, non-unit variable twice in succession restores
every variable's assignment, every constraint's slack, and every
variable's `score` and `slack_score` to their exact prior values. -/
theorem flip_twice_restores (s : LSState) (v : Nat) (hv : v < s.num_vars)
    (hu : s.is_unit v = false) :
    (∀ w, ((s.flip_walksat v).flip_walksat v).cur_solution w = s.cur_solution w) ∧
    (∀ ci, ((s.flip_walksat v).flip_walksat v).constraint_slack ci
        = s.constraint_slack ci) ∧
    (∀ w, (((s.flip_walksat v).flip_walksat v).vars.getD w default).score
            = (s.vars.getD w default).score ∧
          (((s.flip_walksat v).flip_walksat v).vars.getD w default).slack_score
            = (s.vars.getD w default).slack_score) := by
  have hvlen : v < s.vars.length := by unfold num_vars at hv; omega
  have hlen1 : (s.flip_walksat v).vars.length = s.vars.length := by
    rw [flip_walksat_vars]
    simp
  have hset : (s.flip_walksat v).vars.getD v default
      = { s.vars.getD v default with
          value := !(s.vars.getD v default).value,
          flips := (s.vars.getD v default).flips + 1 } := by
    rw [flip_walksat_vars]
    exact getD_set_self _ _ _ _ hvlen
  refine ⟨?_, ?_, ?_⟩
  · intro w
    rw [flip_walksat_cur, flip_walksat_cur]
    by_cases hw : v = w
    · subst hw
      rw [if_pos ⟨rfl, by rw [hlen1]; exact hvlen⟩, if_pos ⟨rfl, hvlen⟩, Bool.not_not]
    · rw [if_neg (by tauto), if_neg (by tauto)]
  · intro ci
    by_cases hci : ci < s.constraints.length
    · have h1 := flip_walksat_slack s v ci hci
      have h2 := flip_walksat_slack (s.flip_walksat v) v ci
        (by rw [flip_walksat_length]; exact hci)
      rw [hset] at h2
      simp only [get_watch_update, Bool.not_not] at h2
      rw [h2, h1]
      omega
    · rw [constraint_slack_oob s ci (by omega),
          constraint_slack_oob _ ci
            (by rw [flip_walksat_length, flip_walksat_length]; omega)]
  · intro w
    obtain ⟨_, g1, g2, _⟩ := flip_walksat_var_fields (s.flip_walksat v) v w
    obtain ⟨_, f1, f2, _⟩ := flip_walksat_var_fields s v w
    exact ⟨by rw [g1, f1], by rw [g2, f2]⟩

/-- C4 witness: for the concrete state after `init_slack` on `exState`,
flipping variable 0 twice restores its value, the slack of constraint 0,
and the score fields. -/
theorem flip_twice_restores_witness :
    (((ZSAT.exState.init_slack).flip_walksat 0).flip_walksat 0).cur_solution 0
        = (ZSAT.exState.init_slack).cur_solution 0 ∧
    (((ZSAT.exState.init_slack).flip_walksat 0).flip_walksat 0).constraint_slack 0
        = (ZSAT.exState.init_slack).constraint_slack 0 ∧
    ((((ZSAT.exState.init_slack).flip_walksat 0).flip_walksat 0).vars.getD 0 default).score
        = ((ZSAT.exState.init_slack).vars.getD 0 default).score := by
  have h := flip_twice_restores (ZSAT.exState.init_slack) 0 (by decide) (by decide)
  exact ⟨h.1 0, h.2.1 0, (h.2.2 0).1⟩

/-! ### Unit protection of the flip selectors -/

theorem pick_finish_flip (s : LSState) (bv : Nat) (rng : RandomGenerator) (v : Nat)
    (h : (pick_finish s bv rng).1 = PickResult.flip v) : s.is_unit v = false := by
  unfold pick_finish at h
  by_cases h1 : bv = NULL_BOOL_VAR
  · rw [if_pos h1] at h
    cases h
  · rw [if_neg h1] at h
    by_cases h2 : s.is_unit bv
    · rw [if_pos h2] at h
      cases h
    · rw [if_neg h2] at h
      cases h
      exact Bool.not_eq_true _ ▸ Bool.of_not_eq_true h2

theorem pick_flip_walksat_unit (s : LSState) (noise : ℚ) (rng : RandomGenerator)
    (v : Nat) (h : (pick_flip_walksat s noise rng).1 = PickResult.flip v) :
    s.is_unit v = false := by
  unfold pick_flip_walksat at h
  dsimp only at h
  split at h
  · split at h
    · split at h
      · cases h
      · cases h
    · exact pick_finish_flip _ _ _ _ h
  · exact pick_finish_flip _ _ _ _ h

theorem lookahead_step_fst (m : Nat → Option Nat) (acc : Lit × Nat × Nat) (l : Lit) :
    ((lookahead_step m acc l).1 = acc.1) ∨ ((lookahead_step m acc l).1 = l) := by
  obtain ⟨b, bm, i⟩ := acc
  unfold lookahead_step
  dsimp only
  split
  · split
    · exact Or.inr rfl
    · exact Or.inl rfl
  · exact Or.inl rfl

theorem foldl_lookahead_mem (L : List Lit) (m : Nat → Option Nat) (acc : Lit × Nat × Nat) :
    ((L.foldl (lookahead_step m) acc).1 = acc.1) ∨
    ((L.foldl (lookahead_step m) acc).1 ∈ L) := by
  induction L generalizing acc with
  | nil => exact Or.inl rfl
  | cons x xs ih =>
    rw [List.foldl_cons]
    rcases ih (lookahead_step m acc x) with h | h
    · rcases lookahead_step_fst m acc x with h2 | h2
      · exact Or.inl (h.trans h2)
      · exact Or.inr (by rw [h, h2]; exact List.mem_cons_self x xs)
    · exact Or.inr (List.mem_cons_of_mem x h)

theorem lookahead_best_mem (L : List Lit) (m : Nat → Option Nat) :
    lookahead_best L m ∈ L ∨ lookahead_best L m = Lit.null := by
  unfold lookahead_best
  rcases foldl_lookahead_mem L m (Lit.null, U64MAX, 0) with h | h
  · exact Or.inr h
  · exact Or.inl h

theorem lookahead_filter_unit (s : LSState) (lits : List Lit) (l : Lit)
    (hl : l ∈ lits.filter (fun l => !(s.is_unit_literal l) && s.is_true_literal l)) :
    s.is_unit l.var = false := by
  have hp := (List.mem_filter.mp hl).2
  have h1 := ((Bool.and_eq_true _ _).mp hp).1
  simp only [Bool.not_eq_true'] at h1
  exact h1

theorem pick_lookahead_units (s : LSState) (rng : RandomGenerator)
    (m : Nat → Option Nat) (v : Nat) (hv : v ∈ pick_flip_lookahead_flips s rng m) :
    s.is_unit v = false := by
  unfold pick_flip_lookahead_flips at hv
  dsimp only at hv
  rcases List.mem_append.mp hv with h | h
  · obtain ⟨lvs, hlvs, hvl⟩ := List.mem_flatten.mp h
    obtain ⟨l, hl, rfl⟩ := List.mem_map.mp hlvs
    have hveq : v = l.var := by
      rcases List.mem_cons.mp hvl with he | he
      · exact he
      · rcases List.mem_cons.mp he with he2 | he2
        · exact he2
        · cases he2
    rw [hveq]
    exact lookahead_filter_unit s _ l hl
  · split at h
    · cases h
    · rcases List.mem_cons.mp h with he | he
      · rename_i hnn
        rw [he]
        rcases lookahead_best_mem
            (((s.constraints.getD
                (s.unsat_stack.getD (rng.next.2 % s.unsat_stack.length) 0)
                default).literals).filter
              (fun l => !(s.is_unit_literal l) && s.is_true_literal l)) m with hm | hm
        · exact lookahead_filter_unit s _ _ hm
        · exact absurd hm hnn
      · cases he

/-- C5: neither selector ever hands a unit (forced) variable to
`flip_walksat`: any variable `pick_flip_walksat` decides to flip is
non-unit (the eligible-literal filter and the explicit re-check make
the `!is_unit(flipvar)` assertion unfailing), and every variable
`pick_flip_lookahead` flips — tentatively or as the final best choice —
comes from the non-unit eligible literals. -/
theorem selectors_never_flip_units (s : LSState) (noise : ℚ) (rng : RandomGenerator) :
    (∀ v, (pick_flip_walksat s noise rng).1 = PickResult.flip v → s.is_unit v = false) ∧
    (∀ (measure : Nat → Option Nat) (v : Nat),
      v ∈ pick_flip_lookahead_flips s rng measure → s.is_unit v = false) :=
  ⟨fun v h => pick_flip_walksat_unit s noise rng v h,
   fun measure v hv => pick_lookahead_units s rng measure v hv⟩

/-- C5 witness: on the concrete violated state after `init_slack` on
`exState`, the WalkSAT selector picks variable 0 to flip and the
lookahead selector's flip list is `[0, 0, 0]`; variable 0 is indeed not
a unit. -/
theorem selectors_never_flip_units_witness :
    ((pick_flip_walksat (ZSAT.exState.init_slack) 10000 ⟨0⟩).1 = PickResult.flip 0 ∧
      (ZSAT.exState.init_slack).is_unit 0 = false) ∧
    (0 ∈ pick_flip_lookahead_flips (ZSAT.exState.init_slack) ⟨0⟩ (fun _ => some 0) ∧
      (ZSAT.exState.init_slack).is_unit 0 = false) := by
  have h := selectors_never_flip_units (ZSAT.exState.init_slack) 10000 ⟨0⟩
  refine ⟨⟨by decide, h.1 0 (by decide)⟩, ⟨by decide, ?_⟩⟩
  exact (selectors_never_flip_units (ZSAT.exState.init_slack) 10000 ⟨0⟩).2
    (fun _ => some 0) 0 (by decide)

end LSState

end ZSAT
